import Mathlib

/-!
A shallow embedding of the out-of-order processor simulator
(`Simulator.py`) and proofs about it.

Python integers are arbitrary-precision and signed, so register values are
modelled as `Int`.  Python lists are `List`.  The operand strings `"xN"` /
`"N"` of a decoded instruction are modelled by the token type `Tok`:
`Tok.reg n` stands for the register token `"xN"` and `Tok.imm n` for the
decimal literal token.  Python `//` is floor division (`Int.fdiv`) and `%`
is floor remainder (`Int.fmod`).

The two `assert` statements inside `ALU.push_instruction` and `ALU.tick`
are modelled by separate boolean predicates (`push_ok`, `tick_ok`) so that
the step function stays total; the development proves those predicates are
always true at the program points where the source asserts them.
-/

namespace OoO

inductive Opcode where
  | add | addi | sub | mulu | divu | remu
deriving DecidableEq, Repr

/-- Operand token: the Python source keeps operands as strings, either a
register token `"xN"` or a decimal immediate token. -/
inductive Tok where
  | reg (n : Nat)
  | imm (n : Nat)
deriving DecidableEq, Repr

/-- `CPU.extract_number`: `int(str[1:])` on a register token, `int(str)`
on a digit string. -/
def Tok.extract_number : Tok → Nat
  | .reg n => n
  | .imm n => n

/-- `str[0].isdigit()` on a token: true exactly for immediates. -/
def Tok.isdigit0 : Tok → Bool
  | .reg _ => false
  | .imm _ => true

/-- `Instruction`: decoded instruction fields (class `Instruction`). -/
structure Instruction where
  pc : Nat
  opcode : Opcode
  dest : Tok
  first : Tok
  second : Tok
deriving DecidableEq, Repr

/-- `ActiveListEntry`. -/
structure ActiveListEntry where
  pc : Nat
  old_dest : Nat
  logical_dest : Nat
  done : Bool
  exception : Bool
deriving DecidableEq, Repr

/-- `IntegerQueueEntry`. -/
structure IntegerQueueEntry where
  dest_reg : Nat
  a_rdy : Bool
  a_tag : Nat
  a_val : Int
  b_rdy : Bool
  b_tag : Nat
  b_val : Int
  opcode : Opcode
  pc : Nat
deriving DecidableEq, Repr

/-- `ALU`: a 2-element shift register `shift_reg = [shift0, shift1]`. -/
structure ALU where
  shift0 : Option IntegerQueueEntry
  shift1 : Option IntegerQueueEntry
deriving DecidableEq, Repr

/-- `ALU.reset`. -/
def ALU.reset (_a : ALU) : ALU := ⟨none, none⟩

/-- `ALU.push_instruction` (without the `assert`, see `ALU.push_ok`). -/
def ALU.push_instruction (a : ALU) (instr : IntegerQueueEntry) : ALU :=
  { a with shift0 := some instr }

/-- The `assert self.shift_reg[0] is None` at the head of
`ALU.push_instruction`. -/
def ALU.push_ok (a : ALU) : Bool := a.shift0 == none

/-- `ALU.tick` (without the `assert`, see `ALU.tick_ok`):
`shift_reg[1] = shift_reg[0]; shift_reg[0] = None`. -/
def ALU.tick (a : ALU) : ALU := ⟨none, a.shift0⟩

/-- The `assert self.shift_reg[1] is None` at the head of `ALU.tick`. -/
def ALU.tick_ok (a : ALU) : Bool := a.shift1 == none

/-- `ALU.pop_result`: execute the entry in the second stage (if any)
according to its opcode; returns the updated ALU together with the
optional `(result, exception, executed_instr)` triple. -/
def ALU.pop_result (a : ALU) : ALU × Option (Int × Bool × IntegerQueueEntry) :=
  match a.shift1 with
  | none => (a, none)
  | some executed_instr =>
    let resex : Int × Bool :=
      match executed_instr.opcode with
      | .add | .addi => (executed_instr.a_val + executed_instr.b_val, false)
      | .sub => (executed_instr.a_val - executed_instr.b_val, false)
      | .mulu => (executed_instr.a_val * executed_instr.b_val, false)
      | .divu =>
          if executed_instr.b_val == 0 then (0, true)
          else (executed_instr.a_val.fdiv executed_instr.b_val, false)
      | .remu =>
          if executed_instr.b_val == 0 then (0, true)
          else (executed_instr.a_val.fmod executed_instr.b_val, false)
    ({ a with shift1 := none }, some (resex.1, resex.2, executed_instr))

/-- The CPU state (the mutable fields of class `CPU`).
`committed_pcs` is a ghost field not present in the source: it records, in
order, the `pc` of every entry retired by normal-mode commit (the source
only counts them in `committed_instructions`); it is written exactly where
the source increments the counter and read by no stage. -/
structure CPU where
  code : List Instruction
  pc : Nat
  rf : List Int
  dir : List Instruction
  exception_flag : Bool
  e_pc : Nat
  map_table : List Nat
  free_list : List Nat
  busy_bit : List Bool
  active_list : List ActiveListEntry
  integer_queue : List IntegerQueueEntry
  ALUs : List ALU
  committed_instructions : Nat
  next_is_exception : Bool
  committed_pcs : List Nat
deriving DecidableEq, Repr

/-- `CPU.__init__`. -/
def CPU.init (code : List Instruction) : CPU where
  code := code
  pc := 0
  rf := List.replicate 64 0
  dir := []
  exception_flag := false
  e_pc := 0
  map_table := List.range 32
  free_list := (List.range 64).drop 32
  busy_bit := List.replicate 64 false
  active_list := []
  integer_queue := []
  ALUs := [⟨none, none⟩, ⟨none, none⟩, ⟨none, none⟩, ⟨none, none⟩]
  committed_instructions := 0
  next_is_exception := false
  committed_pcs := []

/-- The loop body of `fetch_decode`, iterated `n` times:
`dir.append(code[pc]); pc += 1`. -/
def CPU.fetch_loop : Nat → CPU → CPU
  | 0, s => s
  | n + 1, s =>
      CPU.fetch_loop n
        { s with dir := s.dir ++ [s.code.getD s.pc ⟨0, .add, .reg 0, .reg 0, .reg 0⟩],
                 pc := s.pc + 1 }

/-- `CPU.fetch_decode`.  The Python loop bound
`min(4 - len(dir), len(code) - pc)` is a signed quantity which `range`
clamps at 0; natural subtraction does the same clamping here. -/
def CPU.fetch_decode (s : CPU) : CPU :=
  if s.exception_flag then { s with pc := 0x10000, dir := [] }
  else CPU.fetch_loop (min (4 - s.dir.length) (s.code.length - s.pc)) s

/-- The loop body of `rename_dispatch`, iterated `curr_dir_length` times.
Each iteration pops the DIR head and the Free List head, reads the
operands through the map table before renaming the destination, and
appends one Integer Queue entry and one Active List entry. -/
def CPU.rename_loop : Nat → CPU → CPU
  | 0, s => s
  | n + 1, s =>
    match s.dir with
    | [] => s
    | instruction :: rest =>
      let s1 := { s with dir := rest }
      let physical_reg := s1.free_list.headD 0
      let s2 := { s1 with free_list := s1.free_list.tail }
      let old_physical_dest := s2.map_table.getD instruction.dest.extract_number 0
      let first_op := instruction.first.extract_number
      let a_tag := s2.map_table.getD first_op 0
      let a_rdy := ! s2.busy_bit.getD a_tag false
      let a_val := s2.rf.getD a_tag 0
      let second_op := instruction.second.extract_number
      let is_immediate := instruction.second.isdigit0
      let b_rdy := if ! is_immediate
        then ! s2.busy_bit.getD (s2.map_table.getD second_op 0) false else true
      let b_tag := if ! is_immediate then s2.map_table.getD second_op 0 else 0
      let b_val := if ! is_immediate then s2.rf.getD b_tag 0 else (second_op : Int)
      let s3 := { s2 with
        map_table := s2.map_table.set instruction.dest.extract_number physical_reg,
        busy_bit := s2.busy_bit.set physical_reg true }
      let s4 := { s3 with
        integer_queue := s3.integer_queue ++
          [⟨physical_reg, a_rdy, a_tag, a_val, b_rdy, b_tag, b_val,
            instruction.opcode, instruction.pc⟩],
        active_list := s3.active_list ++
          [⟨instruction.pc, old_physical_dest, instruction.dest.extract_number,
            false, false⟩] }
      CPU.rename_loop n s4

/-- `CPU.rename_dispatch`. -/
def CPU.rename_dispatch (s : CPU) : CPU :=
  if s.exception_flag then s
  else if (decide (s.dir.length > 32 - s.active_list.length)
        || decide (s.dir.length > 32 - s.integer_queue.length)
        || decide (s.dir.length > s.free_list.length)) then s
  else CPU.rename_loop s.dir.length s

/-- The loop of `CPU.issue`: walk the integer queue in age order, push
each ready entry into the next ALU until 4 have been issued, keep the
rest (the source records `removed_ids` and pops them afterwards, which
removes exactly the selected entries). -/
def issue_loop : List IntegerQueueEntry → Nat → List ALU →
    List IntegerQueueEntry × List ALU
  | [], _, alus => ([], alus)
  | el :: rest, issued, alus =>
    if issued == 4 then (el :: rest, alus)
    else if el.a_rdy && el.b_rdy then
      issue_loop rest (issued + 1)
        (alus.set issued ((alus.getD issued ⟨none, none⟩).push_instruction el))
    else
      let (q, a2) := issue_loop rest issued alus
      (el :: q, a2)

/-- The conjunction of the `push_instruction` assertions encountered while
running `issue_loop`. -/
def issue_loop_ok : List IntegerQueueEntry → Nat → List ALU → Bool
  | [], _, _ => true
  | el :: rest, issued, alus =>
    if issued == 4 then true
    else if el.a_rdy && el.b_rdy then
      (alus.getD issued ⟨none, none⟩).push_ok &&
      issue_loop_ok rest (issued + 1)
        (alus.set issued ((alus.getD issued ⟨none, none⟩).push_instruction el))
    else issue_loop_ok rest issued alus

/-- `CPU.issue`. -/
def CPU.issue (s : CPU) : CPU :=
  let qa := issue_loop s.integer_queue 0 s.ALUs
  { s with integer_queue := qa.1, ALUs := qa.2 }

/-- All `push_instruction` assertions of this cycle's `issue` hold. -/
def CPU.issue_ok (s : CPU) : Bool := issue_loop_ok s.integer_queue 0 s.ALUs

/-- `CPU.exec1`: tick every ALU. -/
def CPU.exec1 (s : CPU) : CPU := { s with ALUs := s.ALUs.map ALU.tick }

/-- All `tick` assertions of this cycle's `exec1` hold. -/
def CPU.exec1_ok (s : CPU) : Bool := s.ALUs.all ALU.tick_ok

/-- The Active List update of `exec2`: mark the first entry with matching
`pc` as done (the source breaks after the first match). -/
def mark_done (pc : Nat) (exc : Bool) : List ActiveListEntry → List ActiveListEntry
  | [] => []
  | el :: rest =>
    if el.pc == pc then { el with done := true, exception := exc } :: rest
    else el :: mark_done pc exc rest

/-- The Integer Queue forwarding step of `exec2` for one published result:
note the source compares `b_tag` against the destination register with no
immediate test. -/
def forward_entry (p : Nat) (v : Int) (el : IntegerQueueEntry) : IntegerQueueEntry :=
  let el1 := if el.a_tag == p then { el with a_val := v, a_rdy := true } else el
  if el1.b_tag == p then { el1 with b_val := v, b_rdy := true } else el1

/-- The body of `exec2` for one non-empty ALU outcome. -/
def CPU.apply_result (s : CPU) (result : Int) (exception : Bool)
    (instruction : IntegerQueueEntry) : CPU :=
  { s with
    active_list := mark_done instruction.pc exception s.active_list,
    integer_queue := s.integer_queue.map (forward_entry instruction.dest_reg result),
    busy_bit := s.busy_bit.set instruction.dest_reg false,
    rf := s.rf.set instruction.dest_reg result }

/-- The `for alu in self.ALUs` loop of `exec2`, threading the CPU state
through the ALUs in index order. -/
def exec2_loop : List ALU → CPU → List ALU × CPU
  | [], s => ([], s)
  | a :: rest, s =>
    let ao := a.pop_result
    let s2 := match ao.2 with
      | none => s
      | some (result, exception, instruction) =>
          s.apply_result result exception instruction
    let ra := exec2_loop rest s2
    (ao.1 :: ra.1, ra.2)

/-- `CPU.exec2`. -/
def CPU.exec2 (s : CPU) : CPU :=
  let ra := exec2_loop s.ALUs s
  { ra.2 with ALUs := ra.1 }

/-- The normal-mode scan of `commit`: walk up to 4 entries from the head,
stop at the first not-done entry, stop (recording the pending exception)
at the first done-with-exception entry, and otherwise collect the entry.
Returns `(k, old_dests of the k retired entries in order, exception
spotted)`; the source's `removed_ids` are exactly `0..k-1`, and popping
them in descending order drops the first `k` entries. -/
def commit_scan : Nat → List ActiveListEntry → Nat × List Nat × Bool
  | 0, _ => (0, [], false)
  | _ + 1, [] => (0, [], false)
  | n + 1, el :: rest =>
    if ! el.done then (0, [], false)
    else if el.exception then (0, [], true)
    else
      let r := commit_scan n rest
      (r.1 + 1, el.old_dest :: r.2.1, r.2.2)

/-- The rollback loop of exception-mode `commit`, iterated
`min(4, len(active_list))` times: pop the Active List tail, restore the
map table, free the currently mapped physical register and clear its busy
bit. -/
def CPU.rollback_loop : Nat → CPU → CPU
  | 0, s => s
  | n + 1, s =>
    match s.active_list.getLast? with
    | none => s
    | some last_instr =>
      let s1 := { s with active_list := s.active_list.dropLast }
      let curr_physical := s1.map_table.getD last_instr.logical_dest 0
      let s2 := { s1 with
        map_table := s1.map_table.set last_instr.logical_dest last_instr.old_dest,
        free_list := s1.free_list ++ [curr_physical],
        busy_bit := s1.busy_bit.set curr_physical false }
      CPU.rollback_loop n s2

/-- `CPU.commit`.  Returns `(stop, state)` where `stop` mirrors the
source's `return True`/`return False`.  Reading `active_list[0].pc` on an
empty list would raise in Python; it is modelled with a default head. -/
def CPU.commit (s : CPU) : Bool × CPU :=
  if ! s.next_is_exception && ! s.exception_flag then
    let r := commit_scan 4 s.active_list
    let k := r.1
    let s1 := { s with
      free_list := s.free_list ++ r.2.1,
      committed_instructions := s.committed_instructions + k,
      committed_pcs := s.committed_pcs ++ (s.active_list.take k).map (·.pc),
      active_list := s.active_list.drop k,
      next_is_exception := s.next_is_exception || r.2.2 }
    (s1.committed_instructions == s1.code.length, s1)
  else
    let s1 :=
      if s.next_is_exception then
        { s with
          exception_flag := true
          next_is_exception := false
          e_pc := (s.active_list.headD ⟨0, 0, 0, false, false⟩).pc
          ALUs := s.ALUs.map ALU.reset
          integer_queue := [] }
      else s
    let s2 := CPU.rollback_loop (min 4 s1.active_list.length) s1
    (s2.active_list.length == 0, s2)

/-- `CPU.check_asserts`. -/
def CPU.check_asserts (s : CPU) : Bool :=
  decide (s.active_list.length ≤ 32) && decide (s.integer_queue.length ≤ 32)
    && decide (s.dir.length ≤ 4)

/-- One iteration of the `while self.run` loop in `CPU.start`: commit,
and unless it stopped, run the remaining five stages backward. -/
def CPU.cycle (s : CPU) : Bool × CPU :=
  let cs := s.commit
  if cs.1 then (true, cs.2)
  else (false, cs.2.exec2.exec1.issue.rename_dispatch.fetch_decode)

/-- The conjunction of every ALU `assert` evaluated during one loop
iteration (the `tick` asserts at `exec1` time, the `push_instruction`
asserts at `issue` time). -/
def CPU.cycle_asserts_ok (s : CPU) : Bool :=
  let cs := s.commit
  if cs.1 then true
  else
    let s2 := cs.2.exec2
    s2.exec1_ok && s2.exec1.issue_ok

/-- The simulation state: the CPU plus whether the loop has exited. -/
structure SimState where
  cpu : CPU
  halted : Bool
deriving DecidableEq, Repr

/-- One step of the main loop (no-op once halted). -/
def simStep (st : SimState) : SimState :=
  if st.halted then st
  else
    let bs := st.cpu.cycle
    ⟨bs.2, bs.1⟩

/-- The state after `n` loop iterations of `CPU.start` on `code`. -/
def stateAfter (code : List Instruction) (n : Nat) : SimState :=
  simStep^[n] ⟨CPU.init code, false⟩

/-- One snapshot of `CPU.log_state` (each field mirrors one key of the
emitted JSON object). -/
structure Snapshot where
  PC : Nat
  PhysicalRegisterFile : List Int
  DecodedPCs : List Nat
  ExceptionPC : Nat
  Exception : Bool
  RegisterMapTable : List Nat
  FreeList : List Nat
  BusyBitTable : List Bool
  ActiveList : List ActiveListEntry
  IntegerQueue : List IntegerQueueEntry
deriving DecidableEq, Repr

/-- `CPU.log_state` (as the pure construction of the appended snapshot). -/
def CPU.log_state (s : CPU) : Snapshot where
  PC := s.pc
  PhysicalRegisterFile := s.rf
  DecodedPCs := s.dir.map (·.pc)
  ExceptionPC := s.e_pc
  Exception := s.exception_flag
  RegisterMapTable := s.map_table
  FreeList := s.free_list
  BusyBitTable := s.busy_bit
  ActiveList := s.active_list
  IntegerQueue := s.integer_queue

/-- The `while` loop of `CPU.start` with explicit fuel, accumulating the
log: on `stop` the loop breaks without logging (the final `log_state`
after the loop is added by `simLog`). -/
def start_loop : Nat → CPU → List Snapshot → List Snapshot × CPU
  | 0, s, log => (log, s)
  | n + 1, s, log =>
    let bs := s.cycle
    if bs.1 then (log, bs.2)
    else start_loop n bs.2 (log ++ [bs.2.log_state])

/-- `CPU.start` on `code` with `fuel` loop iterations: the initial
snapshot, the per-cycle snapshots, and the final snapshot after the loop
exits. -/
def simLog (code : List Instruction) (fuel : Nat) : List Snapshot :=
  let s0 := CPU.init code
  let lg := start_loop fuel s0 [s0.log_state]
  lg.1 ++ [lg.2.log_state]

/-! ### Concrete test programs

The decoded-instruction lists below correspond to textual programs fed to
the loader (the loader rewrites opcode `addi` to `add` and keeps the
immediate token; each instruction's `pc` is its index). -/

/-- `["addi x1, x0, 5", "sub x2, x0, x1"]` after loading. -/
def progC1 : List Instruction :=
  [⟨0, .add, .reg 1, .reg 0, .imm 5⟩, ⟨1, .sub, .reg 2, .reg 0, .reg 1⟩]

/-- 14 chained `add x30, x30, x30` at pcs 1..14: a long serial dependency. -/
def chainC2 : List Instruction :=
  (List.range 14).map (fun i => ⟨i + 1, .add, .reg 30, .reg 30, .reg 30⟩)

/-- 16 always-ready `add x1, x5, x5` fillers at pcs 16..31 that drain the
free list. -/
def fillersC2 : List Instruction :=
  (List.range 16).map (fun i => ⟨16 + i, .add, .reg 1, .reg 5, .reg 5⟩)

/-- A 33-instruction program: pc 0 writes `x0` (so committing it sends
physical register 0 to the free list), pcs 1..14 are a serial chain, pc 15
is `addi x31, x30, 7` (an immediate operand that waits on the chain), pcs
16..31 drain the remaining free physical registers, and pc 32 is then
renamed to physical register 0. -/
def progC2 : List Instruction :=
  [⟨0, .add, .reg 0, .reg 0, .reg 0⟩] ++ chainC2 ++
  [⟨15, .add, .reg 31, .reg 30, .imm 7⟩] ++ fillersC2 ++
  [⟨32, .add, .reg 3, .reg 5, .reg 5⟩]

/-- `["divu x1, x0, x0"]` after loading: divide by zero at pc 0. -/
def progDiv : List Instruction := [⟨0, .divu, .reg 1, .reg 0, .reg 0⟩]

/-- `["add x1, x0, x0"]` after loading. -/
def progAdd : List Instruction := [⟨0, .add, .reg 1, .reg 0, .reg 0⟩]

/-- The reset-state snapshot: `PC=0`, all registers zero, free list
`[32..63]`, identity map table, everything else empty. -/
def resetSnapshot : Snapshot where
  PC := 0
  PhysicalRegisterFile := List.replicate 64 0
  DecodedPCs := []
  ExceptionPC := 0
  Exception := false
  RegisterMapTable := List.range 32
  FreeList := List.range' 32 32
  BusyBitTable := List.replicate 64 false
  ActiveList := []
  IntegerQueue := []

/-- `["divu x1, x0, x0"]` followed by seven `add x2, x5, x5`: an exception
with seven younger in-flight instructions, so the rollback spans two
cycles. -/
def progExc : List Instruction :=
  [⟨0, .divu, .reg 1, .reg 0, .reg 0⟩] ++
  (List.range 7).map (fun i => ⟨i + 1, .add, .reg 2, .reg 5, .reg 5⟩)

/-! ### Specification-side definitions

The following definitions are written from the wording of the claims (not
from the source); the refinement theorems below compare them with the
embedded code. -/

/-- Spec-side description (from the claim) of rolling back one Active List
entry `e`: set `map_table[e.logical_dest]` to `e.old_dest`, append the
previously mapped physical register to the free list, and clear that
register's busy bit.  Returns `(map_table, free_list, busy_bit)`. -/
def rollback_entry (e : ActiveListEntry) (map free : List Nat) (busy : List Bool) :
    List Nat × List Nat × List Bool :=
  let p_current := map.getD e.logical_dest 0
  (map.set e.logical_dest e.old_dest, free ++ [p_current], busy.set p_current false)

/-- Spec-side rollback of a list of entries (youngest first). -/
def rollback_seq : List ActiveListEntry → List Nat → List Nat → List Bool →
    List Nat × List Nat × List Bool
  | [], map, free, busy => (map, free, busy)
  | e :: rest, map, free, busy =>
    let r := rollback_entry e map free busy
    rollback_seq rest r.1 r.2.1 r.2.2

/-- Spec-side description (from the claim) of dispatching one decoded
instruction: pop the free-list head as destination, read the operands
through the current map table / busy bits / register file, then rename the
destination and mark it busy.  Returns the new Integer Queue entry, the
new Active List entry, and the updated `(map_table, free_list,
busy_bit)`. -/
def dispatch_one (instruction : Instruction) (map free : List Nat)
    (busy : List Bool) (rf : List Int) :
    IntegerQueueEntry × ActiveListEntry × List Nat × List Nat × List Bool :=
  let physical_reg := free.headD 0
  let old_physical_dest := map.getD instruction.dest.extract_number 0
  let first_op := instruction.first.extract_number
  let a_tag := map.getD first_op 0
  let a_rdy := ! busy.getD a_tag false
  let a_val := rf.getD a_tag 0
  let second_op := instruction.second.extract_number
  let is_immediate := instruction.second.isdigit0
  let b_rdy := if ! is_immediate then ! busy.getD (map.getD second_op 0) false else true
  let b_tag := if ! is_immediate then map.getD second_op 0 else 0
  let b_val := if ! is_immediate then rf.getD b_tag 0 else (second_op : Int)
  (⟨physical_reg, a_rdy, a_tag, a_val, b_rdy, b_tag, b_val,
      instruction.opcode, instruction.pc⟩,
   ⟨instruction.pc, old_physical_dest, instruction.dest.extract_number, false, false⟩,
   map.set instruction.dest.extract_number physical_reg,
   free.tail,
   busy.set physical_reg true)

/-- Spec-side dispatch of a whole group in DIR order: the rename effects of
earlier instructions (threaded map table, free list, busy bits) are
visible to later ones.  Returns the appended Integer Queue entries, the
appended Active List entries, and the final `(map_table, free_list,
busy_bit)`. -/
def dispatch_group : List Instruction → List Nat → List Nat → List Bool → List Int →
    List IntegerQueueEntry × List ActiveListEntry × List Nat × List Nat × List Bool
  | [], map, free, busy, _rf => ([], [], map, free, busy)
  | instruction :: rest, map, free, busy, rf =>
    let d := dispatch_one instruction map free busy rf
    let r := dispatch_group rest d.2.2.1 d.2.2.2.1 d.2.2.2.2 rf
    (d.1 :: r.1, d.2.1 :: r.2.1, r.2.2)

/-- The stall condition of Rename & Dispatch, as one boolean. -/
def dispatch_stall (s : CPU) : Bool :=
  s.exception_flag || decide (s.dir.length > 32 - s.active_list.length)
    || decide (s.dir.length > 32 - s.integer_queue.length)
    || decide (s.dir.length > s.free_list.length)

/-- The multiset union named by claim C5 (invariant I2): free list, map
table, Active List old destinations, and the destination registers of the
Integer Queue entries and of the instructions in flight in the ALUs. -/
def claim_pool (s : CPU) : Multiset Nat :=
  (s.free_list : Multiset Nat) + (s.map_table : Multiset Nat) +
  (s.active_list.map (·.old_dest) : Multiset Nat) +
  (s.integer_queue.map (·.dest_reg) : Multiset Nat) +
  ((s.ALUs.filterMap (·.shift0)).map (·.dest_reg) : Multiset Nat) +
  ((s.ALUs.filterMap (·.shift1)).map (·.dest_reg) : Multiset Nat)

/-- The register pool that does partition `{0..63}`: free list, map table,
and Active List old destinations. -/
def reg_pool (s : CPU) : Multiset Nat :=
  (s.free_list : Multiset Nat) + (s.map_table : Multiset Nat) +
  (s.active_list.map (·.old_dest) : Multiset Nat)

/-- The inductive invariant behind C5: the three-component register pool
partitions the 64 physical ids, the map table has 32 entries, and every
logical destination recorded anywhere (Active List, DIR, program) is a
legal logical register. -/
def Inv5 (s : CPU) : Prop :=
  reg_pool s = (List.range 64 : Multiset Nat) ∧
  s.map_table.length = 32 ∧
  (∀ x ∈ s.active_list.map (·.logical_dest), x < 32) ∧
  (∀ i ∈ s.dir, i.dest.extract_number < 32) ∧
  (∀ i ∈ s.code, i.dest.extract_number < 32)

/-- Every destination register of the program is a legal logical register
(`x0`..`x31`); guaranteed by the loader contract. -/
def dests_wf (code : List Instruction) : Bool :=
  code.all fun i => decide (i.dest.extract_number < 32)

/-- Each instruction's `pc` equals its index in the program; guaranteed by
the loader, which numbers instructions by position. -/
def pcs_wf (code : List Instruction) : Bool :=
  (List.range code.length).all fun i =>
    (code.getD i ⟨0, .add, .reg 0, .reg 0, .reg 0⟩).pc == i

/-- The per-cycle-boundary invariant behind C8 (valid while the machine
has not halted): retired PCs are exactly `0..committed-1`, the Active
List holds the next consecutive PCs, the DIR continues them, the fetch PC
continues the DIR in normal mode, and in exception mode the DIR is
empty. -/
def Inv8c (s : CPU) : Prop :=
  s.committed_pcs = List.range s.committed_instructions ∧
  s.active_list.map (·.pc) =
    List.range' s.committed_instructions s.active_list.length ∧
  s.dir.map (·.pc) = List.range'
    (s.committed_instructions + s.active_list.length) s.dir.length ∧
  (s.exception_flag = false →
    s.pc = s.committed_instructions + s.active_list.length + s.dir.length) ∧
  (s.exception_flag = true → s.dir = []) ∧
  pcs_wf s.code = true


/-! ### Theorems -/

/-- C1: the claim says every Exec-2 result is reduced mod 2⁶⁴, so every
physical-register-file value lies in `0 .. 2⁶⁴ - 1`.  The code computes on
unbounded Python integers with no reduction: running
`["addi x1, x0, 5", "sub x2, x0, x1"]`, the `sub` writes `0 - 5 = -5`
(not `2⁶⁴ - 5`) into physical register 33, and `-5` is also the value in
the final snapshot's `PhysicalRegisterFile` — outside `0 .. 2⁶⁴ - 1`. -/
theorem C1_sub_result_negative :
    (stateAfter progC1 7).cpu.rf.getD 33 0 = -5 ∧
    ((simLog progC1 20).getLast?.map
      (fun sn => sn.PhysicalRegisterFile.getD 33 0)) = some (-5) ∧
    ¬ ((0 : Int) ≤ -5 ∧ (-5 : Int) < 2 ^ 64) := by decide

/-- C2: the claim says Exec-2 never updates operand B of an Integer Queue
entry whose operand B is an immediate, so such an entry's `b_val` equals
the decoded immediate for as long as it sits in the queue.  The code
compares `b_tag == dest_reg` with no immediate test, and immediates get
`b_tag = 0`: in `progC2`, the entry for pc 15 (`addi x31, x30, 7`, still
waiting on operand A) has `b_val = 7` at cycle 12, and after the pc-32
instruction (renamed to physical register 0) publishes its result 0 in
cycle 13, the same entry's `b_val` has been clobbered to 0. -/
theorem C2_immediate_operand_clobbered :
    (progC2.getD 15 ⟨0, .add, .reg 0, .reg 0, .reg 0⟩).second = Tok.imm 7 ∧
    ((stateAfter progC2 12).cpu.integer_queue.filter (fun e => e.pc == 15)).map
      (fun e => (e.b_rdy, e.b_tag, e.b_val)) = [(true, 0, 7)] ∧
    ((stateAfter progC2 13).cpu.integer_queue.filter (fun e => e.pc == 15)).map
      (fun e => (e.b_rdy, e.b_tag, e.b_val)) = [(true, 0, 0)] := by decide

/-- C3 counterexample: on `["divu x1, x0, x0"]` the head Active List
entry is first seen `done ∧ exception` at the cycle-5 boundary, so Commit
first scans it during cycle 6 — yet at the end of cycle 6 the exception
flag is still false (only `next_is_exception` is set) and it is raised
only in cycle 7.  The claim's same-cycle (single-phase) transition is
therefore false: the code is two-phase. -/
theorem C3_counterexample_single_phase :
    ((List.range 5).all fun n =>
      !((stateAfter progDiv n).cpu.active_list.headD ⟨0, 0, 0, false, false⟩
        |>.done)) = true ∧
    ((stateAfter progDiv 5).cpu.active_list.headD ⟨0, 0, 0, false, false⟩
      |>.done) = true ∧
    ((stateAfter progDiv 5).cpu.active_list.headD ⟨0, 0, 0, false, false⟩
      |>.exception) = true ∧
    (stateAfter progDiv 6).cpu.exception_flag = false ∧
    (stateAfter progDiv 6).cpu.next_is_exception = true ∧
    (stateAfter progDiv 7).cpu.exception_flag = true := by decide

/-- C4 counterexample: for the empty program the emitted log does not
contain exactly one snapshot — it contains two (the initial snapshot, and
the one emitted by the final `log_state` after the loop breaks). -/
theorem C4_counterexample_two_snapshots :
    (simLog [] 1).length = 2 ∧ (simLog [] 1).length ≠ 1 := by decide

/-- C4 as amended: for the empty program, and for every fuel bound on the
main loop, the emitted log consists of exactly two snapshots, both equal
to the initial reset state: `PC = 0`, all 64 busy bits false,
`FreeList = [32..63]`, `RegisterMapTable = [0..31]`, all physical
registers zero, `DecodedPCs`, `ActiveList` and `IntegerQueue` empty,
`Exception = false`, `ExceptionPC = 0`. -/
theorem C4_amended_empty_program_log (fuel : Nat) :
    simLog [] fuel = [resetSnapshot, resetSnapshot] := by
  cases fuel with
  | zero => decide
  | succ n =>
    have h1 : ((CPU.init []).cycle).1 = true := by decide
    simp only [simLog, start_loop, h1, if_true]
    decide

lemma getD_set_ne {α : Type} (l : List α) (i j : Nat) (v : α) (d : α) (h : i ≠ j) :
    (l.set i v).getD j d = l.getD j d := by
  rw [List.getD_eq_getElem?_getD, List.getD_eq_getElem?_getD, List.getElem?_set_ne h]

lemma pop_result_shift1 (a : ALU) : (a.pop_result).1.shift1 = none := by
  cases h : a.shift1 <;> simp [ALU.pop_result, h]

lemma exec2_loop_shift1 (alus : List ALU) (s : CPU) :
    ∀ a ∈ (exec2_loop alus s).1, a.shift1 = none := by
  induction alus generalizing s with
  | nil => simp [exec2_loop]
  | cons a rest ih =>
    intro b hb
    simp only [exec2_loop, List.mem_cons] at hb
    rcases hb with hb | hb
    · subst hb; exact pop_result_shift1 a
    · exact ih _ _ hb

lemma exec1_ok_after_exec2 (s : CPU) : (s.exec2).exec1_ok = true := by
  simp only [CPU.exec1_ok, List.all_eq_true]
  intro a ha
  have := exec2_loop_shift1 s.ALUs s a (by simpa [CPU.exec2] using ha)
  simp [ALU.tick_ok, this]

lemma exec1_alus_shift0 (s : CPU) (k : Nat) :
    ((s.exec1).ALUs.getD k ⟨none, none⟩).shift0 = none := by
  simp only [CPU.exec1]
  rcases Nat.lt_or_ge k (s.ALUs.map ALU.tick).length with h | h
  · rw [List.getD_eq_getElem _ _ h]
    simp only [List.getElem_map, ALU.tick]
  · rw [List.getD_eq_default _ _ h]

lemma issue_loop_ok_of (q : List IntegerQueueEntry) :
    ∀ (issued : Nat) (alus : List ALU),
      (∀ k, issued ≤ k → (alus.getD k ⟨none, none⟩).shift0 = none) →
      issue_loop_ok q issued alus = true := by
  induction q with
  | nil => intro issued alus _; rfl
  | cons el rest ih =>
    intro issued alus hinv
    rw [issue_loop_ok]
    split
    · rfl
    · split
      · rw [Bool.and_eq_true]
        constructor
        · have h0 := hinv issued (Nat.le_refl _)
          rw [List.getD_eq_getElem?_getD] at h0
          simp [ALU.push_ok, h0]
        · refine ih (issued + 1) _ ?_
          intro k hk
          rw [getD_set_ne _ _ _ _ _ (by omega)]
          exact hinv k (by omega)
      · exact ih issued alus hinv

lemma issue_ok_after_exec1 (s : CPU) : (s.exec1).issue_ok = true := by
  refine issue_loop_ok_of _ 0 _ ?_
  intro k _
  exact exec1_alus_shift0 s k

/-- C9: within one loop iteration, after Exec-2 has consumed every E2
latch, all `tick` assertions hold, and after Exec-1 has drained every E1
latch, all `push_instruction` assertions hold — for every CPU state, so
in particular in every reachable cycle: the two ALU assertions can never
fail during a simulation run. -/
theorem C9_alu_asserts_always_hold (s : CPU) : s.cycle_asserts_ok = true := by
  simp only [CPU.cycle_asserts_ok]
  split
  · rfl
  · rw [exec1_ok_after_exec2, issue_ok_after_exec1]
    rfl

lemma rollback_loop_frame (n : Nat) (s : CPU) :
    (CPU.rollback_loop n s).rf = s.rf ∧
    (CPU.rollback_loop n s).ALUs = s.ALUs ∧
    (CPU.rollback_loop n s).integer_queue = s.integer_queue ∧
    (CPU.rollback_loop n s).exception_flag = s.exception_flag ∧
    (CPU.rollback_loop n s).e_pc = s.e_pc ∧
    (CPU.rollback_loop n s).next_is_exception = s.next_is_exception ∧
    (CPU.rollback_loop n s).dir = s.dir ∧
    (CPU.rollback_loop n s).pc = s.pc ∧
    (CPU.rollback_loop n s).code = s.code ∧
    (CPU.rollback_loop n s).committed_instructions = s.committed_instructions ∧
    (CPU.rollback_loop n s).committed_pcs = s.committed_pcs := by
  induction n generalizing s with
  | zero => simp [CPU.rollback_loop]
  | succ n ih =>
    simp only [CPU.rollback_loop]
    cases h : s.active_list.getLast? with
    | none => simp
    | some e => exact ih _

/-- C10: Commit in exception mode (pending or raised) never modifies the
physical register file, so a value written back by a later-squashed
instruction stays in its register-file entry through rollback and is
visible in the draining and final snapshots. -/
theorem C10_exception_commit_preserves_rf (s : CPU)
    (h : s.next_is_exception = true ∨ s.exception_flag = true) :
    (s.commit).2.rf = s.rf := by
  have hcond : (! s.next_is_exception && ! s.exception_flag) = false := by
    rcases h with h | h <;> simp [h]
  simp only [CPU.commit, hcond, Bool.false_eq_true, if_false]
  rw [(rollback_loop_frame _ _).1]
  split <;> rfl

/-- Witness for C10 at the pending-exception state of the divide-by-zero
run (cycle-6 boundary of `progDiv`, where `next_is_exception` is set). -/
theorem C10_witness :
    ((stateAfter progDiv 6).cpu.commit).2.rf = (stateAfter progDiv 6).cpu.rf :=
  C10_exception_commit_preserves_rf _ (Or.inl (by decide))

lemma commit_scan_spot (fuel : Nat) (l : List ActiveListEntry)
    (h : (commit_scan fuel l).2.2 = true) :
    ∃ e, (l.drop (commit_scan fuel l).1).head? = some e ∧
      e.done = true ∧ e.exception = true := by
  induction fuel generalizing l with
  | zero => simp [commit_scan] at h
  | succ n ih =>
    cases l with
    | nil => simp [commit_scan] at h
    | cons el rest =>
      rw [commit_scan] at h ⊢
      by_cases hd : !el.done
      · simp [hd] at h
      · simp only [hd, if_false] at h ⊢
        by_cases he : el.exception
        · simp only [he, if_true] at h ⊢
          refine ⟨el, by simp, ?_, he⟩
          revert hd; cases el.done <;> simp
        · simp only [he, if_false] at h ⊢
          simpa using ih rest h

/-- C3 as amended: Commit's exception transition is two-phase.  In the
cycle whose scan reaches a done-with-exception entry, Commit only records
the pending exception (`next_is_exception`), leaves the exception flag,
the ALUs, the Integer Queue and ePC untouched, and does not retire the
faulting instruction (it stays at the head of the remaining Active List).
In the next cycle, with `next_is_exception` set, Commit raises the
exception flag, clears the pending flag, records ePC as the head entry's
pc, resets all four ALUs and clears the Integer Queue. -/
theorem C3_amended_two_phase (s : CPU) :
    (s.next_is_exception = false → s.exception_flag = false →
      (commit_scan 4 s.active_list).2.2 = true →
      ((s.commit).2.next_is_exception = true ∧
       (s.commit).2.exception_flag = false ∧
       (s.commit).2.ALUs = s.ALUs ∧
       (s.commit).2.integer_queue = s.integer_queue ∧
       (s.commit).2.e_pc = s.e_pc ∧
       (s.commit).2.active_list = s.active_list.drop (commit_scan 4 s.active_list).1 ∧
       ∃ e, ((s.commit).2.active_list).head? = some e ∧
         e.done = true ∧ e.exception = true)) ∧
    (s.next_is_exception = true →
      ((s.commit).2.exception_flag = true ∧
       (s.commit).2.next_is_exception = false ∧
       (s.commit).2.e_pc = (s.active_list.headD ⟨0, 0, 0, false, false⟩).pc ∧
       (s.commit).2.integer_queue = [] ∧
       (s.commit).2.ALUs = s.ALUs.map ALU.reset)) := by
  constructor
  · intro hp hf hspot
    have hc : (! s.next_is_exception && ! s.exception_flag) = true := by simp [hp, hf]
    simp only [CPU.commit, hc, if_true]
    refine ⟨by simp [hp, hspot], hf, trivial, trivial, trivial, trivial, ?_⟩
    exact commit_scan_spot 4 s.active_list hspot
  · intro hp
    have hcond : (! s.next_is_exception && ! s.exception_flag) = false := by simp [hp]
    simp only [CPU.commit, hcond, Bool.false_eq_true, if_false, hp, if_true]
    have hfr := rollback_loop_frame (min 4 ({ s with
      exception_flag := true, next_is_exception := false,
      e_pc := (s.active_list.headD ⟨0, 0, 0, false, false⟩).pc,
      ALUs := s.ALUs.map ALU.reset, integer_queue := [] } : CPU).active_list.length) { s with
      exception_flag := true, next_is_exception := false,
      e_pc := (s.active_list.headD ⟨0, 0, 0, false, false⟩).pc,
      ALUs := s.ALUs.map ALU.reset, integer_queue := [] }
    exact ⟨hfr.2.2.2.1, hfr.2.2.2.2.2.1, hfr.2.2.2.2.1, hfr.2.2.1, hfr.2.1⟩

/-- Witness for C3's amended theorem: both phases instantiated on the
divide-by-zero run (detection at the cycle-5 boundary state, flag-raise at
the cycle-6 boundary state). -/
theorem C3_amended_two_phase_witness :
    ((stateAfter progDiv 5).cpu.commit).2.next_is_exception = true ∧
    ((stateAfter progDiv 6).cpu.commit).2.exception_flag = true :=
  ⟨((C3_amended_two_phase (stateAfter progDiv 5).cpu).1
      (by decide) (by decide) (by decide)).1,
   ((C3_amended_two_phase (stateAfter progDiv 6).cpu).2 (by decide)).1⟩

lemma reverse_eq_cons_of_getLast? {α : Type} (l : List α) (e : α)
    (h : l.getLast? = some e) : l.reverse = e :: l.dropLast.reverse := by
  conv_lhs => rw [← List.dropLast_append_getLast? e h]
  simp

lemma rollback_loop_spec (n : Nat) : ∀ (s : CPU), n ≤ s.active_list.length →
    CPU.rollback_loop n s =
      { s with
        active_list := s.active_list.take (s.active_list.length - n),
        map_table := (rollback_seq (s.active_list.reverse.take n)
          s.map_table s.free_list s.busy_bit).1,
        free_list := (rollback_seq (s.active_list.reverse.take n)
          s.map_table s.free_list s.busy_bit).2.1,
        busy_bit := (rollback_seq (s.active_list.reverse.take n)
          s.map_table s.free_list s.busy_bit).2.2 } := by
  induction n with
  | zero =>
    intro s _
    simp [CPU.rollback_loop, rollback_seq, List.take_length]
  | succ n ih =>
    intro s hn
    have hne : s.active_list ≠ [] := by
      intro h; rw [h] at hn; simp at hn
    obtain ⟨e, he⟩ : ∃ e, s.active_list.getLast? = some e := by
      cases h : s.active_list.getLast? with
      | none => exact absurd (List.getLast?_eq_none_iff.mp h) hne
      | some e => exact ⟨e, rfl⟩
    have hrev := reverse_eq_cons_of_getLast? _ _ he
    have hlen : s.active_list.dropLast.length = s.active_list.length - 1 := by
      simp [List.length_dropLast]
    have hn' : n ≤ s.active_list.dropLast.length := by omega
    have htake : s.active_list.dropLast.take (s.active_list.dropLast.length - n) =
        s.active_list.take (s.active_list.length - (n + 1)) := by
      have hidx : s.active_list.dropLast.length - n = s.active_list.length - (n + 1) := by
        omega
      rw [hidx, List.dropLast_eq_take, List.take_take]
      congr 1
      omega
    rw [CPU.rollback_loop, he]
    dsimp only
    rw [ih _ hn']
    rw [hrev, List.take_succ_cons, rollback_seq]
    dsimp only [rollback_entry]
    rw [htake]

/-- C7: with the exception flag raised, Commit rolls back
`min 4 |ActiveList|` entries from the tail; the resulting map table, free
list and busy bits are exactly the spec-side per-entry rollback
(`rollback_entry` youngest-first), the exception flag stays raised, Commit
reports stop exactly when the Active List had at most 4 entries (so it is
now empty, the faulting instruction having been rolled back with the
rest), and in that case the cycle ends the simulation loop. -/
theorem C7_exception_rollback (s : CPU) (hf : s.exception_flag = true)
    (hp : s.next_is_exception = false) :
    (s.commit).2.active_list =
      s.active_list.take (s.active_list.length - min 4 s.active_list.length) ∧
    (s.commit).2.map_table = (rollback_seq
      (s.active_list.reverse.take (min 4 s.active_list.length))
      s.map_table s.free_list s.busy_bit).1 ∧
    (s.commit).2.free_list = (rollback_seq
      (s.active_list.reverse.take (min 4 s.active_list.length))
      s.map_table s.free_list s.busy_bit).2.1 ∧
    (s.commit).2.busy_bit = (rollback_seq
      (s.active_list.reverse.take (min 4 s.active_list.length))
      s.map_table s.free_list s.busy_bit).2.2 ∧
    (s.commit).2.exception_flag = true ∧
    ((s.commit).1 = true ↔ s.active_list.length ≤ 4) ∧
    ((s.commit).1 = true → s.cycle = (true, (s.commit).2)) := by
  have hcond : (! s.next_is_exception && ! s.exception_flag) = false := by simp [hf]
  have hs1 : s.commit =
      ((CPU.rollback_loop (min 4 s.active_list.length) s).active_list.length == 0,
        CPU.rollback_loop (min 4 s.active_list.length) s) := by
    simp only [CPU.commit, hcond, Bool.false_eq_true, if_false]
    simp only [hp, Bool.false_eq_true, if_false]
  have hroll := rollback_loop_spec (min 4 s.active_list.length) s (Nat.min_le_right _ _)
  refine ⟨?_, ?_, ?_, ?_, ?_, ?_, ?_⟩
  · rw [hs1, hroll]
  · rw [hs1, hroll]
  · rw [hs1, hroll]
  · rw [hs1, hroll]
  · rw [hs1, hroll]; exact hf
  · rw [hs1, hroll]
    simp only [beq_iff_eq, List.length_take]
    omega
  · intro hstop
    simp only [CPU.cycle, hstop]
    rw [hs1] at hstop ⊢
    simp only [hstop, if_true]

/-- Witness for C7 at the cycle-7 boundary state of `progExc`: the
exception flag is raised, the pending flag is clear, and four of the eight
in-flight instructions have already been rolled back (four remain). -/
theorem C7_exception_rollback_witness :
    ((stateAfter progExc 7).cpu.commit).2.exception_flag = true ∧
    (((stateAfter progExc 7).cpu.commit).1 = true ↔
      (stateAfter progExc 7).cpu.active_list.length ≤ 4) :=
  ⟨(C7_exception_rollback _ (by decide) (by decide)).2.2.2.2.1,
   (C7_exception_rollback _ (by decide) (by decide)).2.2.2.2.2.1⟩

lemma rename_loop_spec (n : Nat) : ∀ (s : CPU), n ≤ s.dir.length →
    CPU.rename_loop n s = { s with
      dir := s.dir.drop n,
      map_table := (dispatch_group (s.dir.take n)
        s.map_table s.free_list s.busy_bit s.rf).2.2.1,
      free_list := (dispatch_group (s.dir.take n)
        s.map_table s.free_list s.busy_bit s.rf).2.2.2.1,
      busy_bit := (dispatch_group (s.dir.take n)
        s.map_table s.free_list s.busy_bit s.rf).2.2.2.2,
      integer_queue := s.integer_queue ++ (dispatch_group (s.dir.take n)
        s.map_table s.free_list s.busy_bit s.rf).1,
      active_list := s.active_list ++ (dispatch_group (s.dir.take n)
        s.map_table s.free_list s.busy_bit s.rf).2.1 } := by
  induction n with
  | zero =>
    intro s _
    simp [CPU.rename_loop, dispatch_group]
  | succ n ih =>
    intro s hn
    match hdir : s.dir with
    | [] => rw [hdir] at hn; simp at hn
    | instruction :: rest =>
      rw [CPU.rename_loop, hdir]
      dsimp only
      rw [ih _ (by rw [hdir] at hn; simpa using hn)]
      rw [List.take_succ_cons, List.drop_succ_cons, dispatch_group]
      dsimp only [dispatch_one]
      simp only [List.append_assoc, List.singleton_append]

/-- C6: Rename & Dispatch is all-or-nothing.  If the exception flag is
set or the DIR does not fit in the Active List, Integer Queue, or Free
List, the stage is the identity (DIR, free list, map table, busy bits,
Active List and Integer Queue all unchanged); otherwise it drains the
whole DIR in order, and the result is exactly the spec-side group
dispatch: per instruction the free-list head is popped as destination,
one Active List entry and one Integer Queue entry are appended, and each
instruction reads the map table/busy bits as already renamed by the
earlier instructions of the same group. -/
theorem C6_dispatch_all_or_nothing (s : CPU) :
    s.rename_dispatch = if dispatch_stall s then s
      else { s with
        dir := [],
        map_table := (dispatch_group s.dir
          s.map_table s.free_list s.busy_bit s.rf).2.2.1,
        free_list := (dispatch_group s.dir
          s.map_table s.free_list s.busy_bit s.rf).2.2.2.1,
        busy_bit := (dispatch_group s.dir
          s.map_table s.free_list s.busy_bit s.rf).2.2.2.2,
        integer_queue := s.integer_queue ++ (dispatch_group s.dir
          s.map_table s.free_list s.busy_bit s.rf).1,
        active_list := s.active_list ++ (dispatch_group s.dir
          s.map_table s.free_list s.busy_bit s.rf).2.1 } := by
  by_cases hstall : dispatch_stall s = true
  · rw [if_pos hstall]
    simp only [dispatch_stall, Bool.or_eq_true] at hstall
    unfold CPU.rename_dispatch
    by_cases hf : s.exception_flag = true
    · rw [if_pos hf]
    · rw [if_neg hf]
      have hc : (decide (s.dir.length > 32 - s.active_list.length)
          || decide (s.dir.length > 32 - s.integer_queue.length)
          || decide (s.dir.length > s.free_list.length)) = true := by
        rcases hstall with ((h | h) | h) | h
        · exact absurd h hf
        · simp [h]
        · simp [h]
        · simp [h]
      rw [if_pos hc]
  · rw [if_neg hstall]
    simp only [dispatch_stall, Bool.or_eq_true, not_or] at hstall
    obtain ⟨⟨⟨hf, h1⟩, h2⟩, h3⟩ := hstall
    unfold CPU.rename_dispatch
    rw [if_neg hf]
    have hc : (decide (s.dir.length > 32 - s.active_list.length)
        || decide (s.dir.length > 32 - s.integer_queue.length)
        || decide (s.dir.length > s.free_list.length)) = false := by
      simp only [Bool.or_eq_false_iff]
      exact ⟨⟨by simpa using h1, by simpa using h2⟩, by simpa using h3⟩
    rw [hc]
    simp only [Bool.false_eq_true, if_false]
    rw [rename_loop_spec s.dir.length s (Nat.le_refl _), List.take_length, List.drop_length]



lemma multiset_set_add (l : List Nat) (i v : Nat) (h : i < l.length) :
    ((l.set i v : List Nat) : Multiset Nat) + {l.getD i 0} =
      (l : Multiset Nat) + {v} := by
  conv_rhs => rw [← List.take_append_drop i l, List.drop_eq_getElem_cons h]
  rw [List.set_eq_take_cons_drop v h, List.getD_eq_getElem l 0 h]
  simp only [← Multiset.coe_add, ← Multiset.cons_coe, ← Multiset.singleton_add]
  abel

lemma mark_done_map_old (pc : Nat) (exc : Bool) (l : List ActiveListEntry) :
    (mark_done pc exc l).map (·.old_dest) = l.map (·.old_dest) := by
  induction l with
  | nil => rfl
  | cons e rest ih =>
    rw [mark_done]
    split <;> simp [ih]

lemma mark_done_map_ld (pc : Nat) (exc : Bool) (l : List ActiveListEntry) :
    (mark_done pc exc l).map (·.logical_dest) = l.map (·.logical_dest) := by
  induction l with
  | nil => rfl
  | cons e rest ih =>
    rw [mark_done]
    split <;> simp [ih]

lemma mark_done_map_pc (pc : Nat) (exc : Bool) (l : List ActiveListEntry) :
    (mark_done pc exc l).map (·.pc) = l.map (·.pc) := by
  induction l with
  | nil => rfl
  | cons e rest ih =>
    rw [mark_done]
    split <;> simp [ih]

lemma exec2_loop_state (alus : List ALU) (s : CPU) :
    (exec2_loop alus s).2.free_list = s.free_list ∧
    (exec2_loop alus s).2.map_table = s.map_table ∧
    (exec2_loop alus s).2.active_list.map (·.old_dest) = s.active_list.map (·.old_dest) ∧
    (exec2_loop alus s).2.active_list.map (·.logical_dest) = s.active_list.map (·.logical_dest) ∧
    (exec2_loop alus s).2.active_list.map (·.pc) = s.active_list.map (·.pc) ∧
    (exec2_loop alus s).2.dir = s.dir ∧
    (exec2_loop alus s).2.pc = s.pc ∧
    (exec2_loop alus s).2.code = s.code ∧
    (exec2_loop alus s).2.committed_instructions = s.committed_instructions ∧
    (exec2_loop alus s).2.committed_pcs = s.committed_pcs ∧
    (exec2_loop alus s).2.exception_flag = s.exception_flag ∧
    (exec2_loop alus s).2.next_is_exception = s.next_is_exception ∧
    (exec2_loop alus s).2.e_pc = s.e_pc := by
  induction alus generalizing s with
  | nil => simp [exec2_loop]
  | cons a rest ih =>
    rw [exec2_loop]
    cases ho : (a.pop_result).2 with
    | none => exact ih _
    | some res =>
      obtain ⟨result, exception, instruction⟩ := res
      have := ih (s.apply_result result exception instruction)
      simp only [CPU.apply_result] at this
      simpa [mark_done_map_old, mark_done_map_ld, mark_done_map_pc] using this

lemma exec2_state (s : CPU) :
    (s.exec2).free_list = s.free_list ∧
    (s.exec2).map_table = s.map_table ∧
    (s.exec2).active_list.map (·.old_dest) = s.active_list.map (·.old_dest) ∧
    (s.exec2).active_list.map (·.logical_dest) = s.active_list.map (·.logical_dest) ∧
    (s.exec2).active_list.map (·.pc) = s.active_list.map (·.pc) ∧
    (s.exec2).dir = s.dir ∧
    (s.exec2).pc = s.pc ∧
    (s.exec2).code = s.code ∧
    (s.exec2).committed_instructions = s.committed_instructions ∧
    (s.exec2).committed_pcs = s.committed_pcs ∧
    (s.exec2).exception_flag = s.exception_flag ∧
    (s.exec2).next_is_exception = s.next_is_exception ∧
    (s.exec2).e_pc = s.e_pc := by
  simpa [CPU.exec2] using exec2_loop_state s.ALUs s




lemma fetch_loop_spec (n : Nat) : ∀ (s : CPU), s.pc + n ≤ s.code.length →
    CPU.fetch_loop n s =
      { s with dir := s.dir ++ (s.code.drop s.pc).take n, pc := s.pc + n } := by
  induction n with
  | zero => intro s _; simp [CPU.fetch_loop]
  | succ n ih =>
    intro s hn
    have hlt : s.pc < s.code.length := by omega
    rw [CPU.fetch_loop]
    have hih := ih { s with
      dir := s.dir ++ [s.code.getD s.pc ⟨0, .add, .reg 0, .reg 0, .reg 0⟩],
      pc := s.pc + 1 } (by show s.pc + 1 + n ≤ s.code.length; omega)
    rw [hih]
    dsimp only
    rw [List.drop_eq_getElem_cons hlt]
    rw [List.getD_eq_getElem _ _ hlt]
    simp only [List.take_succ_cons, List.append_assoc, List.singleton_append]
    congr 1
    omega

lemma fetch_decode_spec (s : CPU) :
    s.fetch_decode = if s.exception_flag then { s with pc := 0x10000, dir := [] }
      else { s with
        dir := s.dir ++ (s.code.drop s.pc).take
          (min (4 - s.dir.length) (s.code.length - s.pc)),
        pc := s.pc + min (4 - s.dir.length) (s.code.length - s.pc) } := by
  rw [CPU.fetch_decode]
  split
  · rfl
  · rcases le_or_lt s.pc s.code.length with hle | hgt
    · exact fetch_loop_spec _ s (by
        have h1 := Nat.min_le_right (4 - s.dir.length) (s.code.length - s.pc)
        omega)
    · have h0 : min (4 - s.dir.length) (s.code.length - s.pc) = 0 := by
        have h2 : s.code.length - s.pc = 0 := by omega
        simp [h2]
      rw [h0]
      simp [CPU.fetch_loop]

lemma dispatch_group_map_length (dir : List Instruction) :
    ∀ (map free : List Nat) (busy : List Bool) (rf : List Int),
      (dispatch_group dir map free busy rf).2.2.1.length = map.length := by
  induction dir with
  | nil => intro map free busy rf; rfl
  | cons i rest ih =>
    intro map free busy rf
    rw [dispatch_group]
    dsimp only [dispatch_one]
    rw [ih]
    simp

lemma dispatch_group_al_lds (dir : List Instruction) :
    ∀ (map free : List Nat) (busy : List Bool) (rf : List Int),
      (dispatch_group dir map free busy rf).2.1.map (·.logical_dest) =
        dir.map (·.dest.extract_number) := by
  induction dir with
  | nil => intro map free busy rf; rfl
  | cons i rest ih =>
    intro map free busy rf
    rw [dispatch_group]
    dsimp only [dispatch_one]
    simp [ih]

lemma dispatch_group_al_pcs (dir : List Instruction) :
    ∀ (map free : List Nat) (busy : List Bool) (rf : List Int),
      (dispatch_group dir map free busy rf).2.1.map (·.pc) = dir.map (·.pc) := by
  induction dir with
  | nil => intro map free busy rf; rfl
  | cons i rest ih =>
    intro map free busy rf
    rw [dispatch_group]
    dsimp only [dispatch_one]
    simp [ih]

lemma dispatch_group_al_length (dir : List Instruction) :
    ∀ (map free : List Nat) (busy : List Bool) (rf : List Int),
      (dispatch_group dir map free busy rf).2.1.length = dir.length := by
  intro map free busy rf
  have := dispatch_group_al_pcs dir map free busy rf
  have h2 := congrArg List.length this
  simpa using h2

lemma dispatch_group_iq_length (dir : List Instruction) :
    ∀ (map free : List Nat) (busy : List Bool) (rf : List Int),
      (dispatch_group dir map free busy rf).1.length = dir.length := by
  induction dir with
  | nil => intro map free busy rf; rfl
  | cons i rest ih =>
    intro map free busy rf
    rw [dispatch_group]
    simp [ih]

lemma dispatch_group_pool (dir : List Instruction) :
    ∀ (map free : List Nat) (busy : List Bool) (rf : List Int),
      dir.length ≤ free.length → map.length = 32 →
      (∀ i ∈ dir, i.dest.extract_number < 32) →
      ((dispatch_group dir map free busy rf).2.2.2.1 : Multiset Nat) +
        ((dispatch_group dir map free busy rf).2.2.1 : Multiset Nat) +
        ((dispatch_group dir map free busy rf).2.1.map (·.old_dest) : Multiset Nat) =
      (free : Multiset Nat) + (map : Multiset Nat) := by
  induction dir with
  | nil => intro map free busy rf _ _ _; simp [dispatch_group]
  | cons i rest ih =>
    intro map free busy rf hfree hmap hwf
    match hf : free with
    | [] => simp at hfree
    | p :: ftail =>
      rw [dispatch_group]
      dsimp only [dispatch_one]
      simp only [List.headD_cons, List.tail_cons, List.map_cons]
      have hd : i.dest.extract_number < map.length := by
        rw [hmap]; exact hwf i (by simp)
      have ihh := ih (map.set i.dest.extract_number p) ftail
        (busy.set p true) rf
        (by simpa using hfree)
        (by simpa using hmap)
        (fun j hj => hwf j (by simp [hj]))
      -- goal: groupFree + groupMap + (old ::ₘ groupOlds) = (p :: ftail) + map
      have hset := multiset_set_add map i.dest.extract_number p hd
      -- rearrange
      calc ((dispatch_group rest (map.set i.dest.extract_number p) ftail
              (busy.set p true) rf).2.2.2.1 : Multiset Nat) +
            ((dispatch_group rest (map.set i.dest.extract_number p) ftail
              (busy.set p true) rf).2.2.1 : Multiset Nat) +
            ((map.getD i.dest.extract_number 0 ::
              (dispatch_group rest (map.set i.dest.extract_number p) ftail
                (busy.set p true) rf).2.1.map (·.old_dest) : List Nat) : Multiset Nat)
          = (((dispatch_group rest (map.set i.dest.extract_number p) ftail
              (busy.set p true) rf).2.2.2.1 : Multiset Nat) +
            ((dispatch_group rest (map.set i.dest.extract_number p) ftail
              (busy.set p true) rf).2.2.1 : Multiset Nat) +
            ((dispatch_group rest (map.set i.dest.extract_number p) ftail
                (busy.set p true) rf).2.1.map (·.old_dest) : Multiset Nat)) +
            {map.getD i.dest.extract_number 0} := by
            rw [← Multiset.cons_coe, ← Multiset.singleton_add]
            abel
        _ = ((ftail : Multiset Nat) + (map.set i.dest.extract_number p : Multiset Nat)) +
            {map.getD i.dest.extract_number 0} := by rw [ihh]
        _ = (ftail : Multiset Nat) + ((map : Multiset Nat) + {p}) := by
            rw [add_assoc, hset]
        _ = ((p :: ftail : List Nat) : Multiset Nat) + (map : Multiset Nat) := by
            rw [← Multiset.cons_coe, ← Multiset.singleton_add]
            abel




lemma rollback_seq_pool (entries : List ActiveListEntry) :
    ∀ (map free : List Nat) (busy : List Bool), map.length = 32 →
      (∀ e ∈ entries, e.logical_dest < 32) →
      ((rollback_seq entries map free busy).2.1 : Multiset Nat) +
        ((rollback_seq entries map free busy).1 : Multiset Nat) =
      (free : Multiset Nat) + (map : Multiset Nat) +
        (entries.map (·.old_dest) : Multiset Nat) := by
  induction entries with
  | nil => intro map free busy _ _; simp [rollback_seq]
  | cons e rest ih =>
    intro map free busy hmap hwf
    rw [rollback_seq]
    dsimp only [rollback_entry]
    have hd : e.logical_dest < map.length := by rw [hmap]; exact hwf e (by simp)
    have hset := multiset_set_add map e.logical_dest e.old_dest hd
    rw [ih _ _ _ (by simpa using hmap) (fun x hx => hwf x (by simp [hx]))]
    calc ((free ++ [map.getD e.logical_dest 0] : List Nat) : Multiset Nat) +
          ((map.set e.logical_dest e.old_dest : List Nat) : Multiset Nat) +
          (rest.map (·.old_dest) : Multiset Nat)
        = (free : Multiset Nat) +
            (((map.set e.logical_dest e.old_dest : List Nat) : Multiset Nat) +
              {map.getD e.logical_dest 0}) +
            (rest.map (·.old_dest) : Multiset Nat) := by
          rw [← Multiset.coe_add]
          simp only [← Multiset.coe_singleton]
          abel
      _ = (free : Multiset Nat) + ((map : Multiset Nat) + {e.old_dest}) +
            (rest.map (·.old_dest) : Multiset Nat) := by rw [hset]
      _ = (free : Multiset Nat) + (map : Multiset Nat) +
            ((e.old_dest :: rest.map (·.old_dest) : List Nat) : Multiset Nat) := by
          rw [← Multiset.cons_coe, ← Multiset.singleton_add]
          abel

lemma rollback_seq_map_length (entries : List ActiveListEntry) :
    ∀ (map free : List Nat) (busy : List Bool),
      (rollback_seq entries map free busy).1.length = map.length := by
  induction entries with
  | nil => intro map free busy; rfl
  | cons e rest ih =>
    intro map free busy
    rw [rollback_seq]
    dsimp only [rollback_entry]
    rw [ih]
    simp

lemma commit_scan_olds (fuel : Nat) : ∀ (l : List ActiveListEntry),
    (commit_scan fuel l).2.1 =
      (l.take (commit_scan fuel l).1).map (·.old_dest) ∧
    (commit_scan fuel l).1 ≤ l.length := by
  induction fuel with
  | zero => intro l; simp [commit_scan]
  | succ n ih =>
    intro l
    cases l with
    | nil => simp [commit_scan]
    | cons el rest =>
      rw [commit_scan]
      split
      · simp
      · split
        · simp
        · have := ih rest
          refine ⟨?_, by simpa using this.2⟩
          dsimp only
          rw [List.take_succ_cons, List.map_cons, this.1]

lemma rollback_pool_general (t : CPU) (hmap : t.map_table.length = 32)
    (hld : ∀ x ∈ t.active_list.map (·.logical_dest), x < 32) :
    reg_pool (CPU.rollback_loop (min 4 t.active_list.length) t) = reg_pool t := by
  rw [rollback_loop_spec _ _ (Nat.min_le_right _ _)]
  dsimp only [reg_pool]
  rw [rollback_seq_pool _ _ _ _ hmap ?hwf]
  case hwf =>
    intro e he
    have hmem : e ∈ t.active_list := List.mem_reverse.mp (List.mem_of_mem_take he)
    exact hld e.logical_dest (List.mem_map_of_mem _ hmem)
  have hro : ((t.active_list.reverse.take (min 4 t.active_list.length)).map
        (·.old_dest) : Multiset Nat) =
      ((t.active_list.drop
        (t.active_list.length - min 4 t.active_list.length)).map
        (·.old_dest) : Multiset Nat) := by
    rw [List.take_reverse, List.map_reverse, Multiset.coe_reverse]
  rw [hro]
  conv_rhs => rw [← List.take_append_drop
    (t.active_list.length - min 4 t.active_list.length) t.active_list]
  rw [List.map_append]
  simp only [← Multiset.coe_add]
  abel

lemma commit_pool (s : CPU) (hmap : s.map_table.length = 32)
    (hld : ∀ x ∈ s.active_list.map (·.logical_dest), x < 32) :
    reg_pool (s.commit).2 = reg_pool s := by
  rw [CPU.commit]
  split
  · dsimp only [reg_pool]
    have hso := commit_scan_olds 4 s.active_list
    rw [hso.1]
    conv_rhs => rw [← List.take_append_drop (commit_scan 4 s.active_list).1
      s.active_list]
    rw [List.map_append]
    simp only [← Multiset.coe_add]
    abel
  · split
    · have := rollback_pool_general { s with
        exception_flag := true
        next_is_exception := false
        e_pc := (s.active_list.headD ⟨0, 0, 0, false, false⟩).pc
        ALUs := s.ALUs.map ALU.reset
        integer_queue := [] } (by simpa using hmap) (by simpa using hld)
      simpa [reg_pool] using this
    · exact rollback_pool_general s hmap hld




lemma commit_code (s : CPU) : (s.commit).2.code = s.code := by
  rw [CPU.commit]
  split
  · rfl
  · split
    · exact (rollback_loop_frame _ _).2.2.2.2.2.2.2.2.1
    · exact (rollback_loop_frame _ _).2.2.2.2.2.2.2.2.1

lemma commit_dir (s : CPU) : (s.commit).2.dir = s.dir := by
  rw [CPU.commit]
  split
  · rfl
  · split
    · exact (rollback_loop_frame _ _).2.2.2.2.2.2.1
    · exact (rollback_loop_frame _ _).2.2.2.2.2.2.1

lemma commit_map_length (s : CPU) (hm : s.map_table.length = 32) :
    (s.commit).2.map_table.length = 32 := by
  rw [CPU.commit]
  split
  · exact hm
  · split
    · dsimp only
      rw [rollback_loop_spec (min 4 s.active_list.length) ({ s with
        exception_flag := true
        next_is_exception := false
        e_pc := (s.active_list.headD ⟨0, 0, 0, false, false⟩).pc
        ALUs := s.ALUs.map ALU.reset
        integer_queue := [] })
        (Nat.min_le_right _ _)]
      dsimp only
      rw [rollback_seq_map_length]
      simpa using hm
    · dsimp only
      rw [rollback_loop_spec _ _ (Nat.min_le_right _ _)]
      dsimp only
      rw [rollback_seq_map_length]
      exact hm

lemma commit_al_lds (s : CPU)
    (hl : ∀ x ∈ s.active_list.map (·.logical_dest), x < 32) :
    ∀ x ∈ (s.commit).2.active_list.map (·.logical_dest), x < 32 := by
  rw [CPU.commit]
  split
  · intro x hx
    obtain ⟨e, he, rfl⟩ := List.mem_map.mp hx
    exact hl _ (List.mem_map_of_mem _ (List.mem_of_mem_drop he))
  · split
    · dsimp only
      rw [rollback_loop_spec (min 4 s.active_list.length) ({ s with
        exception_flag := true
        next_is_exception := false
        e_pc := (s.active_list.headD ⟨0, 0, 0, false, false⟩).pc
        ALUs := s.ALUs.map ALU.reset
        integer_queue := [] })
        (Nat.min_le_right _ _)]
      dsimp only
      intro x hx
      obtain ⟨e, he, rfl⟩ := List.mem_map.mp hx
      exact hl _ (List.mem_map_of_mem _ (List.mem_of_mem_take he))
    · dsimp only
      rw [rollback_loop_spec _ _ (Nat.min_le_right _ _)]
      dsimp only
      intro x hx
      obtain ⟨e, he, rfl⟩ := List.mem_map.mp hx
      exact hl _ (List.mem_map_of_mem _ (List.mem_of_mem_take he))

lemma commit_inv (s : CPU) (h : Inv5 s) : Inv5 (s.commit).2 := by
  obtain ⟨hp, hm, hl, hd, hc⟩ := h
  refine ⟨?_, commit_map_length s hm, commit_al_lds s hl, ?_, ?_⟩
  · rw [commit_pool s hm hl]; exact hp
  · rw [commit_dir]; exact hd
  · rw [commit_code]; exact hc

lemma exec2_inv (s : CPU) (h : Inv5 s) : Inv5 s.exec2 := by
  obtain ⟨hp, hm, hl, hd, hc⟩ := h
  obtain ⟨e1, e2, e3, e4, _, e6, _, e8, _⟩ := exec2_state s
  refine ⟨?_, ?_, ?_, ?_, ?_⟩
  · simp only [reg_pool, e1, e2, e3]
    exact hp
  · rw [e2]; exact hm
  · rw [e4]; exact hl
  · rw [e6]; exact hd
  · rw [e8]; exact hc

lemma exec1_inv (s : CPU) (h : Inv5 s) : Inv5 s.exec1 := h

lemma issue_inv (s : CPU) (h : Inv5 s) : Inv5 s.issue := h

lemma rename_inv (s : CPU) (h : Inv5 s) : Inv5 s.rename_dispatch := by
  obtain ⟨hp, hm, hl, hd, hc⟩ := h
  rw [CPU.rename_dispatch]
  split
  · exact ⟨hp, hm, hl, hd, hc⟩
  · split
    · exact ⟨hp, hm, hl, hd, hc⟩
    · rename_i hguard
      have hfree : s.dir.length ≤ s.free_list.length := by
        by_contra hcon
        apply hguard
        simp only [Bool.or_eq_true, decide_eq_true_eq]
        right; omega
      rw [rename_loop_spec _ _ (Nat.le_refl _), List.take_length]
      have hgp := dispatch_group_pool s.dir s.map_table s.free_list s.busy_bit s.rf
        hfree hm hd
      refine ⟨?_, ?_, ?_, by simp [List.drop_length], ?_⟩
      · simp only [reg_pool]
        rw [List.map_append]
        simp only [← Multiset.coe_add]
        have hre : ∀ (a b c d : Multiset Nat), a + b + (c + d) = a + b + d + c := by
          intro a b c d; abel
        rw [hre, hgp]
        exact hp
      · dsimp only
        rw [dispatch_group_map_length]
        exact hm
      · dsimp only
        intro x hx
        rw [List.map_append, List.mem_append] at hx
        rcases hx with hx | hx
        · exact hl x hx
        · rw [dispatch_group_al_lds] at hx
          obtain ⟨i, hi, rfl⟩ := List.mem_map.mp hx
          exact hd i hi
      · exact hc

lemma fetch_inv (s : CPU) (h : Inv5 s) : Inv5 s.fetch_decode := by
  obtain ⟨hp, hm, hl, hd, hc⟩ := h
  rw [fetch_decode_spec]
  split
  · exact ⟨hp, hm, hl, by simp, hc⟩
  · refine ⟨hp, hm, hl, ?_, hc⟩
    intro i hi
    rw [List.mem_append] at hi
    rcases hi with hi | hi
    · exact hd i hi
    · exact hc i (List.mem_of_mem_drop (List.mem_of_mem_take hi))

lemma cycle_inv (s : CPU) (h : Inv5 s) : Inv5 (s.cycle).2 := by
  rw [CPU.cycle]
  split
  · exact commit_inv s h
  · exact fetch_inv _ (rename_inv _ (issue_inv _ (exec1_inv _ (exec2_inv _
      (commit_inv s h)))))

lemma inv5_init (code : List Instruction)
    (hc : ∀ i ∈ code, i.dest.extract_number < 32) : Inv5 (CPU.init code) := by
  refine ⟨?_, rfl, by simp [CPU.init], by simp [CPU.init], by simpa [CPU.init] using hc⟩
  show (((List.range 64).drop 32 : List Nat) : Multiset Nat) +
      ((List.range 32 : List Nat) : Multiset Nat) +
      (([] : List ActiveListEntry).map (·.old_dest) : Multiset Nat) =
      (List.range 64 : Multiset Nat)
  decide

lemma inv5_stateAfter (code : List Instruction)
    (hc : ∀ i ∈ code, i.dest.extract_number < 32) (n : Nat) :
    Inv5 (stateAfter code n).cpu := by
  induction n with
  | zero => exact inv5_init code hc
  | succ n ih =>
    rw [stateAfter, Function.iterate_succ_apply']
    rw [simStep]
    split
    · exact ih
    · exact cycle_inv _ ih

/-- C5 as amended: for every program whose destination registers are legal
(the loader contract) and every cycle boundary, the multiset union of the
Free List, the 32 Map Table entries, and the old_dest fields of the Active
List entries equals {0..63} with no duplicates (the Integer Queue / ALU
dest_reg component of the original claim is dropped: those ids already
occur in the Map Table or as a younger entry's old_dest). -/
theorem C5_amended_pool_partition (code : List Instruction)
    (hc : dests_wf code = true) (n : Nat) :
    reg_pool (stateAfter code n).cpu = (List.range 64 : Multiset Nat) := by
  have hc' : ∀ i ∈ code, i.dest.extract_number < 32 := by
    intro i hi
    have := List.all_eq_true.mp hc i hi
    simpa using this
  exact (inv5_stateAfter code hc' n).1

/-- C5 counterexample: two cycles into `["add x1, x0, x0"]` the
instruction is dispatched, so physical register 32 occurs both as
`map_table[1]` and as the Integer Queue entry's `dest_reg`: the claim's
four-component multiset counts it twice and is not `{0..63}`. -/
theorem C5_counterexample_pool_duplicate :
    Multiset.count 32 (claim_pool (stateAfter progAdd 2).cpu) = 2 ∧
    claim_pool (stateAfter progAdd 2).cpu ≠ (List.range 64 : Multiset Nat) := by
  constructor
  · decide
  · decide

/-- Witness for C5's amended theorem on the single-add program, three
cycles in (instruction in flight in an ALU). -/
theorem C5_amended_pool_partition_witness :
    reg_pool (stateAfter progAdd 3).cpu = (List.range 64 : Multiset Nat) :=
  C5_amended_pool_partition progAdd (by decide) 3




lemma range'_take (c n k : Nat) (h : k ≤ n) :
    (List.range' c n).take k = List.range' c k := by
  have hs : List.range' c k ++ List.range' (c + k) (n - k) = List.range' c n := by
    have h2 := List.range'_append c k (n - k) 1
    simp only [one_mul, Nat.mul_one] at h2
    rw [show n - k + k = n by omega] at h2
    simpa using h2
  rw [← hs, List.take_left' (by simp [List.length_range'])]

lemma range'_drop (c n k : Nat) (h : k ≤ n) :
    (List.range' c n).drop k = List.range' (c + k) (n - k) := by
  have hs : List.range' c k ++ List.range' (c + k) (n - k) = List.range' c n := by
    have h2 := List.range'_append c k (n - k) 1
    simp only [one_mul, Nat.mul_one] at h2
    rw [show n - k + k = n by omega] at h2
    simpa using h2
  rw [← hs, List.drop_left' (by simp [List.length_range'])]

lemma range_append_range' (c k : Nat) :
    List.range c ++ List.range' c k = List.range (c + k) := by
  rw [List.range_eq_range', List.range_eq_range']
  have h2 := List.range'_append 0 c k 1
  simp only [one_mul, Nat.mul_one, Nat.zero_add] at h2
  rw [show c + k = k + c by omega]
  exact h2

lemma range'_append_one (c a b : Nat) :
    List.range' c a ++ List.range' (c + a) b = List.range' c (a + b) := by
  have h2 := List.range'_append c a b 1
  simp only [one_mul, Nat.mul_one] at h2
  rw [show a + b = b + a by omega]
  exact h2

lemma commit_scan_le_fuel (fuel : Nat) : ∀ (l : List ActiveListEntry),
    (commit_scan fuel l).1 ≤ fuel := by
  induction fuel with
  | zero => intro l; simp [commit_scan]
  | succ n ih =>
    intro l
    cases l with
    | nil => simp [commit_scan]
    | cons el rest =>
      rw [commit_scan]
      split
      · simp
      · split
        · simp
        · dsimp only
          have := ih rest
          omega

lemma commit_pc (s : CPU) : (s.commit).2.pc = s.pc := by
  rw [CPU.commit]
  split
  · rfl
  · split
    · exact (rollback_loop_frame _ _).2.2.2.2.2.2.2.1
    · exact (rollback_loop_frame _ _).2.2.2.2.2.2.2.1

lemma commit_flag_exc (s : CPU)
    (h : s.next_is_exception = true ∨ s.exception_flag = true) :
    (s.commit).2.exception_flag = true := by
  have hcond : (! s.next_is_exception && ! s.exception_flag) = false := by
    rcases h with h | h <;> simp [h]
  rw [CPU.commit]
  simp only [hcond, Bool.false_eq_true, if_false]
  split
  · exact (rollback_loop_frame _ _).2.2.2.1
  · rw [(rollback_loop_frame _ _).2.2.2.1]
    rcases h with h | h
    · rename_i hneg; exact absurd h (by simpa using hneg)
    · exact h

lemma commit_exc_frozen (s : CPU)
    (hcond : (! s.next_is_exception && ! s.exception_flag) = false) :
    (s.commit).2.committed_instructions = s.committed_instructions ∧
    (s.commit).2.committed_pcs = s.committed_pcs ∧
    (s.commit).2.dir = s.dir ∧ (s.commit).2.code = s.code := by
  rw [CPU.commit]
  simp only [hcond, Bool.false_eq_true, if_false]
  split
  · exact ⟨(rollback_loop_frame _ _).2.2.2.2.2.2.2.2.2.1,
      (rollback_loop_frame _ _).2.2.2.2.2.2.2.2.2.2,
      (rollback_loop_frame _ _).2.2.2.2.2.2.1,
      (rollback_loop_frame _ _).2.2.2.2.2.2.2.2.1⟩
  · exact ⟨(rollback_loop_frame _ _).2.2.2.2.2.2.2.2.2.1,
      (rollback_loop_frame _ _).2.2.2.2.2.2.2.2.2.2,
      (rollback_loop_frame _ _).2.2.2.2.2.2.1,
      (rollback_loop_frame _ _).2.2.2.2.2.2.2.2.1⟩

lemma rollback_AB (t : CPU)
    (hA : t.committed_pcs = List.range t.committed_instructions)
    (hB : t.active_list.map (·.pc) =
      List.range' t.committed_instructions t.active_list.length) :
    (CPU.rollback_loop (min 4 t.active_list.length) t).committed_pcs =
      List.range
        (CPU.rollback_loop (min 4 t.active_list.length) t).committed_instructions ∧
    (CPU.rollback_loop (min 4 t.active_list.length) t).active_list.map (·.pc) =
      List.range'
        (CPU.rollback_loop (min 4 t.active_list.length) t).committed_instructions
        (CPU.rollback_loop (min 4 t.active_list.length) t).active_list.length := by
  rw [rollback_loop_spec _ _ (Nat.min_le_right _ _)]
  dsimp only
  refine ⟨hA, ?_⟩
  rw [List.map_take, hB, range'_take _ _ _ (Nat.sub_le _ _), List.length_take]
  congr 1
  omega

lemma commit_inv8_AB (s : CPU)
    (hA : s.committed_pcs = List.range s.committed_instructions)
    (hB : s.active_list.map (·.pc) =
      List.range' s.committed_instructions s.active_list.length) :
    (s.commit).2.committed_pcs = List.range (s.commit).2.committed_instructions ∧
    (s.commit).2.active_list.map (·.pc) = List.range'
      (s.commit).2.committed_instructions (s.commit).2.active_list.length := by
  by_cases hcond : (! s.next_is_exception && ! s.exception_flag) = true
  · simp only [CPU.commit, hcond, if_true]
    have hk := (commit_scan_olds 4 s.active_list).2
    constructor
    · rw [hA, List.map_take, hB, range'_take _ _ _ hk, range_append_range']
    · rw [List.map_drop, hB, range'_drop _ _ _ hk, List.length_drop]
  · have hcond' : (! s.next_is_exception && ! s.exception_flag) = false := by
      revert hcond
      cases (! s.next_is_exception && ! s.exception_flag) <;> simp
    rw [CPU.commit]
    simp only [hcond', Bool.false_eq_true, if_false]
    split
    · exact rollback_AB _ hA hB
    · exact rollback_AB _ hA hB




lemma slice_pcs (code : List Instruction) (hw : pcs_wf code = true) :
    ∀ (m p : Nat), p + m ≤ code.length →
      ((code.drop p).take m).map (·.pc) = List.range' p m := by
  intro m
  induction m with
  | zero => intro p _; simp
  | succ m ih =>
    intro p hp
    have hlt : p < code.length := by omega
    rw [List.drop_eq_getElem_cons hlt, List.take_succ_cons, List.map_cons]
    have hpc : code[p].pc = p := by
      have h1 := List.all_eq_true.mp hw p (by
        rw [List.mem_range]; exact hlt)
      rw [List.getD_eq_getElem _ _ hlt] at h1
      simpa using h1
    rw [hpc, ih (p + 1) (by omega)]
    rfl

lemma exec2_inv8 (s : CPU) (h : Inv8c s) : Inv8c s.exec2 := by
  obtain ⟨hA, hB, hC, hD, hE, hW⟩ := h
  obtain ⟨_, _, _, _, e5, e6, e7, e8, e9, e10, e11, _, _⟩ := exec2_state s
  have hlen : (s.exec2).active_list.length = s.active_list.length := by
    have := congrArg List.length e5
    simpa using this
  refine ⟨?_, ?_, ?_, ?_, ?_, ?_⟩
  · rw [e10, e9]; exact hA
  · rw [e5, e9, hlen]; exact hB
  · rw [e6, e9, hlen]; exact hC
  · rw [e11, e7, e9, hlen, e6]; exact hD
  · rw [e11, e6]; exact hE
  · rw [e8]; exact hW

lemma exec1_inv8 (s : CPU) (h : Inv8c s) : Inv8c s.exec1 := h

lemma issue_inv8 (s : CPU) (h : Inv8c s) : Inv8c s.issue := h

lemma rename_stall_of_flag (s : CPU) (hf : s.exception_flag = true) :
    s.rename_dispatch = s := by
  rw [CPU.rename_dispatch]
  simp [hf]

lemma rename_inv8 (s : CPU) (h : Inv8c s) : Inv8c s.rename_dispatch := by
  obtain ⟨hA, hB, hC, hD, hE, hW⟩ := h
  rw [CPU.rename_dispatch]
  split
  · exact ⟨hA, hB, hC, hD, hE, hW⟩
  · split
    · exact ⟨hA, hB, hC, hD, hE, hW⟩
    · rename_i hflag hguard
      rw [rename_loop_spec _ _ (Nat.le_refl _), List.take_length, List.drop_length]
      have hgl := dispatch_group_al_length s.dir s.map_table s.free_list
        s.busy_bit s.rf
      have hgp := dispatch_group_al_pcs s.dir s.map_table s.free_list
        s.busy_bit s.rf
      refine ⟨hA, ?_, ?_, ?_, ?_, hW⟩
      · dsimp only
        rw [List.map_append, hB, hgp, hC, List.length_append, hgl,
          range'_append_one]
      · dsimp only
        simp [List.range']
      · dsimp only
        intro hfl
        rw [List.length_append, hgl]
        have h2 := hD (by simpa using hfl)
        simp only [List.length_nil]
        omega
      · dsimp only
        intro hfl
        exact absurd hfl (by simp at hflag; simp [hflag])

lemma fetch_inv8 (s : CPU) (h : Inv8c s) : Inv8c s.fetch_decode := by
  obtain ⟨hA, hB, hC, hD, hE, hW⟩ := h
  rw [fetch_decode_spec]
  split
  · rename_i hfl
    refine ⟨hA, hB, by simp [List.range'], by simp [hfl], by simp, hW⟩
  · rename_i hfl
    have hflag : s.exception_flag = false := by
      revert hfl; cases s.exception_flag <;> simp
    have hDv := hD hflag
    rcases le_or_lt s.pc s.code.length with hle | hgt
    · have hm : s.pc + min (4 - s.dir.length) (s.code.length - s.pc) ≤
          s.code.length := by
        have h1 := Nat.min_le_right (4 - s.dir.length) (s.code.length - s.pc)
        omega
      have hsl := slice_pcs s.code hW
        (min (4 - s.dir.length) (s.code.length - s.pc)) s.pc hm
      have hsln : ((s.code.drop s.pc).take
          (min (4 - s.dir.length) (s.code.length - s.pc))).length =
          min (4 - s.dir.length) (s.code.length - s.pc) := by
        have h2 := congrArg List.length hsl
        rw [List.length_map] at h2
        rw [h2, List.length_range']
      refine ⟨hA, hB, ?_, ?_, ?_, hW⟩
      · dsimp only
        rw [List.map_append, hC, hsl, List.length_append, hsln, hDv,
          range'_append_one]
      · intro _
        dsimp only
        rw [List.length_append, hsln]
        omega
      · intro hfl2
        exact absurd hfl2 (by simp [hflag])
    · have h0 : min (4 - s.dir.length) (s.code.length - s.pc) = 0 := by
        have h2 : s.code.length - s.pc = 0 := by omega
        simp [h2]
      rw [h0]
      refine ⟨hA, hB, ?_, ?_, ?_, hW⟩
      · dsimp only
        simpa using hC
      · intro _
        dsimp only
        simpa using hDv
      · intro hfl2
        exact absurd hfl2 (by simp [hflag])




lemma commit_inv8_normal (s : CPU) (hp : s.next_is_exception = false)
    (hf : s.exception_flag = false) (h : Inv8c s) : Inv8c (s.commit).2 := by
  obtain ⟨hA, hB, hC, hD, hE, hW⟩ := h
  have hAB := commit_inv8_AB s hA hB
  have hc : (! s.next_is_exception && ! s.exception_flag) = true := by simp [hp, hf]
  have hsum : (s.commit).2.committed_instructions +
      (s.commit).2.active_list.length =
      s.committed_instructions + s.active_list.length := by
    simp only [CPU.commit, hc, if_true]
    have hk := (commit_scan_olds 4 s.active_list).2
    rw [List.length_drop]
    omega
  have hdir : (s.commit).2.dir = s.dir := commit_dir s
  have hpc : (s.commit).2.pc = s.pc := commit_pc s
  have hflag2 : (s.commit).2.exception_flag = s.exception_flag := by
    simp only [CPU.commit, hc, if_true]
  refine ⟨hAB.1, hAB.2, ?_, ?_, ?_, ?_⟩
  · rw [hdir, hsum]
    exact hC
  · intro _
    rw [hpc, hdir, hsum]
    exact hD hf
  · intro hfl
    rw [hflag2, hf] at hfl
    cases hfl
  · rw [commit_code]
    exact hW

lemma chain_inv8_flag (t : CPU) (hflag : t.exception_flag = true)
    (hA : t.committed_pcs = List.range t.committed_instructions)
    (hB : t.active_list.map (·.pc) =
      List.range' t.committed_instructions t.active_list.length)
    (hW : pcs_wf t.code = true) :
    Inv8c t.exec2.exec1.issue.rename_dispatch.fetch_decode := by
  obtain ⟨_, _, _, _, e5, _, _, e8, e9, e10, e11, _, _⟩ := exec2_state t
  have hlen : (t.exec2).active_list.length = t.active_list.length := by
    have := congrArg List.length e5
    simpa using this
  have hflagu : t.exec2.exec1.issue.exception_flag = true := by
    show t.exec2.exception_flag = true
    rw [e11]; exact hflag
  rw [rename_stall_of_flag _ hflagu]
  rw [fetch_decode_spec, if_pos hflagu]
  refine ⟨?_, ?_, by simp [List.range'], ?_, by simp, ?_⟩
  · show t.exec2.committed_pcs = List.range t.exec2.committed_instructions
    rw [e10, e9]; exact hA
  · show t.exec2.active_list.map (·.pc) = List.range'
      t.exec2.committed_instructions t.exec2.active_list.length
    rw [e5, e9, hlen]; exact hB
  · intro hcon
    have : t.exec2.exec1.issue.exception_flag = false := hcon
    rw [hflagu] at this
    cases this
  · show pcs_wf t.exec2.code = true
    rw [e8]; exact hW

lemma cycle_inv8 (s : CPU) (h : Inv8c s) :
    ((s.cycle).2.committed_pcs = List.range (s.cycle).2.committed_instructions ∧
     (s.cycle).2.active_list.map (·.pc) = List.range'
       (s.cycle).2.committed_instructions (s.cycle).2.active_list.length) ∧
    ((s.cycle).1 = false → Inv8c (s.cycle).2) := by
  have hAB := commit_inv8_AB s h.1 h.2.1
  rw [CPU.cycle]
  split
  · refine ⟨hAB, ?_⟩
    intro hcon
    cases hcon
  · by_cases hp : s.next_is_exception = true
    · have hflagc : (s.commit).2.exception_flag = true :=
        commit_flag_exc s (Or.inl hp)
      have hWc : pcs_wf (s.commit).2.code = true := by
        rw [commit_code]; exact h.2.2.2.2.2
      have hinv := chain_inv8_flag (s.commit).2 hflagc hAB.1 hAB.2 hWc
      exact ⟨⟨hinv.1, hinv.2.1⟩, fun _ => hinv⟩
    · by_cases hf : s.exception_flag = true
      · have hflagc : (s.commit).2.exception_flag = true :=
          commit_flag_exc s (Or.inr hf)
        have hWc : pcs_wf (s.commit).2.code = true := by
          rw [commit_code]; exact h.2.2.2.2.2
        have hinv := chain_inv8_flag (s.commit).2 hflagc hAB.1 hAB.2 hWc
        exact ⟨⟨hinv.1, hinv.2.1⟩, fun _ => hinv⟩
      · have hp' : s.next_is_exception = false := by
          revert hp; cases s.next_is_exception <;> simp
        have hf' : s.exception_flag = false := by
          revert hf; cases s.exception_flag <;> simp
        have hc := commit_inv8_normal s hp' hf' h
        have hinv := fetch_inv8 _ (rename_inv8 _ (issue_inv8 _ (exec1_inv8 _
          (exec2_inv8 _ hc))))
        exact ⟨⟨hinv.1, hinv.2.1⟩, fun _ => hinv⟩

lemma inv8_run (code : List Instruction) (hw : pcs_wf code = true) :
    ∀ (n : Nat),
    ((stateAfter code n).cpu.committed_pcs =
       List.range (stateAfter code n).cpu.committed_instructions ∧
     (stateAfter code n).cpu.active_list.map (·.pc) = List.range'
       (stateAfter code n).cpu.committed_instructions
       (stateAfter code n).cpu.active_list.length) ∧
    ((stateAfter code n).halted = false → Inv8c (stateAfter code n).cpu) := by
  intro n
  induction n with
  | zero =>
    refine ⟨⟨rfl, rfl⟩, ?_⟩
    intro _
    refine ⟨rfl, rfl, rfl, fun _ => rfl, ?_, hw⟩
    intro hcon
    cases hcon
  | succ n ih =>
    have hst : stateAfter code (n + 1) = simStep (stateAfter code n) := by
      rw [stateAfter, stateAfter, Function.iterate_succ_apply']
    rw [hst, simStep]
    split
    · rename_i hh
      refine ⟨ih.1, ?_⟩
      intro h2
      rw [h2] at hh
      cases hh
    · rename_i hh
      have hinv := ih.2 (by revert hh; cases (stateAfter code n).halted <;> simp)
      have := cycle_inv8 (stateAfter code n).cpu hinv
      exact ⟨this.1, this.2⟩

lemma rename_committed_pcs (s : CPU) :
    (s.rename_dispatch).committed_pcs = s.committed_pcs := by
  rw [CPU.rename_dispatch]
  split
  · rfl
  · split
    · rfl
    · rw [rename_loop_spec _ _ (Nat.le_refl _)]

lemma fetch_committed_pcs (s : CPU) :
    (s.fetch_decode).committed_pcs = s.committed_pcs := by
  rw [fetch_decode_spec]
  split <;> rfl

lemma commit_growth (s : CPU) :
    (s.commit).2.committed_pcs.length ≤ s.committed_pcs.length + 4 := by
  by_cases hcond : (! s.next_is_exception && ! s.exception_flag) = true
  · simp only [CPU.commit, hcond, if_true]
    rw [List.length_append, List.length_map, List.length_take]
    have h4 := commit_scan_le_fuel 4 s.active_list
    have := Nat.min_le_left (commit_scan 4 s.active_list).1 s.active_list.length
    omega
  · have hcond' : (! s.next_is_exception && ! s.exception_flag) = false := by
      revert hcond
      cases (! s.next_is_exception && ! s.exception_flag) <;> simp
    rw [(commit_exc_frozen s hcond').2.1]
    omega

lemma cycle_growth (s : CPU) :
    (s.cycle).2.committed_pcs.length ≤ s.committed_pcs.length + 4 := by
  rw [CPU.cycle]
  split
  · exact commit_growth s
  · rw [fetch_committed_pcs, rename_committed_pcs]
    have hiss : (s.commit).2.exec2.exec1.issue.committed_pcs =
        (s.commit).2.exec2.committed_pcs := rfl
    rw [hiss, (exec2_state (s.commit).2).2.2.2.2.2.2.2.2.2.1]
    exact commit_growth s

/-- C8: for every program whose instructions are numbered by position (the
loader contract) and every prefix of the simulation, the PCs retired by
normal-mode Commit, in retirement order, are exactly `0, 1, ...,
len - 1` — a prefix of program order, so no instruction retires before
every smaller PC has retired — and each cycle retires at most 4
instructions. -/
theorem C8_commit_order_prefix (code : List Instruction)
    (hw : pcs_wf code = true) (n : Nat) :
    (stateAfter code n).cpu.committed_pcs =
      List.range (stateAfter code n).cpu.committed_pcs.length ∧
    (stateAfter code (n + 1)).cpu.committed_pcs.length ≤
      (stateAfter code n).cpu.committed_pcs.length + 4 := by
  have h1 := (inv8_run code hw n).1.1
  constructor
  · rw [h1, List.length_range]
  · have hst : stateAfter code (n + 1) = simStep (stateAfter code n) := by
      rw [stateAfter, stateAfter, Function.iterate_succ_apply']
    rw [hst, simStep]
    split
    · omega
    · exact cycle_growth _


/-- Witness for C8 on the two-instruction `progC1` run, five cycles in. -/
theorem C8_commit_order_prefix_witness :
    (stateAfter progC1 5).cpu.committed_pcs =
      List.range (stateAfter progC1 5).cpu.committed_pcs.length ∧
    (stateAfter progC1 6).cpu.committed_pcs.length ≤
      (stateAfter progC1 5).cpu.committed_pcs.length + 4 :=
  C8_commit_order_prefix progC1 (by decide) 5

end OoO
